import Mathlib

/-!
Verification of the nengo reference simulator core (`nengo/simulator.py`)
against its natural-language specification.

The numeric contents of signal buffers are modelled with exact rationals
(`ℚ`), the standard exact-arithmetic reading of the float64 buffers.
Stateful Python objects become explicit state records; methods become
functions on those records; raising Python code returns `Except`.
Operator behaviour is not defined by this core (the spec's §1 non-goal),
so compiled step callables are supplied abstractly by the model record.
-/

namespace Nengo

/-- Floating-point error handling mode of one fault class, as accepted by
`numpy.seterr` (we model the modes that occur in `Simulator.step`). -/
inductive ErrMode
  | raiseMode
  | ignoreMode
  | warnMode
deriving DecidableEq

/-- The global numpy floating-point fault policy, restricted to the two
fault classes that `Simulator.step` configures: `invalid` and `divide`. -/
structure FpPolicy where
  invalid : ErrMode
  divide : ErrMode
deriving DecidableEq

/-- Modelled numpy semantics: `np.seterr(...)` installs the requested
settings and returns the previously active settings (the `old_err` value
that `Simulator.step` later restores with `np.seterr(**old_err)`). -/
def seterr (req cur : FpPolicy) : FpPolicy × FpPolicy := (cur, req)

/-- The fault policy installed for the duration of the compiled step
callables: `np.seterr(invalid='raise', divide='ignore')` in
`Simulator.step`. -/
def stepErrPolicy : FpPolicy :=
  { invalid := ErrMode.raiseMode, divide := ErrMode.ignoreMode }

/-- The guarded execution region of `Simulator.step` (lines 178-183):
`old_err = np.seterr(invalid='raise', divide='ignore')` then
`try: for step_fn in self._steps: step_fn()` and
`finally: np.seterr(**old_err)`.  The body is the callable loop,
abstracted; it observes the installed policy and may raise (`Except.error`)
or complete (`Except.ok`).  The result pairs the body's outcome with the
fault policy left in effect afterwards. -/
def runStepFns {E : Type} {A : Type} (body : FpPolicy → Except E A)
    (cur : FpPolicy) : Except E A × FpPolicy :=
  let z := seterr stepErrPolicy cur
  match body z.2 with
  | Except.ok a => (Except.ok a, (seterr z.1 z.2).2)
  | Except.error e => (Except.error e, (seterr z.1 z.2).2)

/-- Extract the value of an infallible `Except`. -/
def okValue {A : Type} : Except Empty A → A
  | Except.ok a => a
  | Except.error e => e.elim

/-- The mutable state visible to the compiled step callables: the signal
buffers of the `SignalDict` (keyed by signal identity, excluding the
distinguished `__time__` entry, which ordinary signal access never
reaches), the callables' private closure state (one cell per operator),
and the shared `numpy.random.RandomState` stream state. -/
structure OpWorld where
  sigs : Nat → ℚ
  opState : Nat → ℚ
  rng : Nat

/-- The immutable build artifacts a `Simulator` is constructed over.

Fields translated from `simulator.py` where it decides them; the parts of
the repository outside `simulator.py` enter as follows.

Modelled from the spec: `SignalDict` (nengo/builder/signal.py) captures
each signal's reset value at construction and `SignalDict.reset` restores
it ("reset(signal) restores the signal's buffer contents to its captured
initial value"); this capture is the field `initVal`, with `sigKeys` the
store's key set.  The operators' `make_step` (nengo/builder/operator.py)
and `numpy.random.RandomState` are deterministic in the simulator seed
("the random source passed to each operator must derive deterministically
from a single simulator-wide seed"), so rebuilding the callables at
`reset` yields private state `initOpState seed` and leaves the shared
stream at `rngAfterBuild seed`.  The per-step behaviour of one compiled
callable is the abstract `stepFn` (the core "does not define what any
individual operator computes"); it may read the current time signal but
writes only through the ordinary signal path, which never reaches the
`__time__` entry. -/
structure NengoModel where
  dt : ℚ
  sigKeys : List Nat
  initVal : Nat → ℚ
  probes : List Nat
  probeSig : Nat → Nat
  sampleEvery : Nat → Option ℚ
  stepOrder : List Nat
  stepFn : Nat → ℚ → ℚ → OpWorld → OpWorld
  initOpState : Nat → Nat → ℚ
  rngAfterBuild : Nat → Nat

/-- The mutable state of a `Simulator`: the step counter `n_steps`, the
value of the distinguished `__time__` signal, the world the step callables
act on, the per-probe snapshot lists `_probe_outputs`, the ambient numpy
fault policy, and the stored seed `self.seed`. -/
structure SimState where
  n_steps : Nat
  timeSig : ℚ
  world : OpWorld
  probeData : Nat → List ℚ
  fpPolicy : FpPolicy
  seed : Nat

/-- Python's modulo on numbers: `a % b = a - b * floor(a / b)`. -/
def pyMod (a b : ℚ) : ℚ := a - b * (⌊a / b⌋ : ℚ)

/-- The sampling period of a probe in steps, from `Simulator._probe`:
`period = 1 if probe.sample_every is None else probe.sample_every / self.dt`. -/
def probePeriod (m : NengoModel) (p : Nat) : ℚ :=
  match m.sampleEvery p with
  | none => 1
  | some se => se / m.dt

/-- The sampling decision of `Simulator._probe` for probe `p` at step
counter `c`: the numeric test `c % period < 1` (Python modulo on
numbers, `a % b = a - b * floor(a / b)`). -/
def sampleTest (m : NengoModel) (p : Nat) (c : Nat) : Prop :=
  pyMod (c : ℚ) (probePeriod m p) < 1

instance (m : NengoModel) (p c : Nat) : Decidable (sampleTest m p c) := by
  unfold sampleTest
  infer_instance

/-- One iteration of the loop body of `Simulator._probe` for probe `p`:
if `self.n_steps % period < 1`, copy the probed signal's current value and
append it to that probe's output list. -/
def probeOne (m : NengoModel) (s : SimState) (p : Nat) : SimState :=
  if sampleTest m p s.n_steps then
    let tmp := s.world.sigs (m.probeSig p)
    { s with probeData := Function.update s.probeData p (s.probeData p ++ [tmp]) }
  else s

/-- `Simulator._probe`: the per-step sampling pass over `self.model.probes`. -/
def probePass (m : NengoModel) (s : SimState) : SimState :=
  m.probes.foldl (probeOne m) s

/-- The callable loop `for step_fn in self._steps: step_fn()`, where
`self._steps` lists the compiled callables in `self._step_order`.  The
current time-signal value is passed read-only. -/
def runCallables (m : NengoModel) (t : ℚ) (w : OpWorld) : OpWorld :=
  m.stepOrder.foldl (fun acc i => m.stepFn i m.dt t acc) w

/-- Phase 1 of `Simulator.step`: `self.n_steps += 1`. -/
def incrCounter (s : SimState) : SimState := { s with n_steps := s.n_steps + 1 }

/-- Phase 2 of `Simulator.step`:
`self.signals['__time__'][...] = self.n_steps * self.dt`. -/
def writeTimeSignal (m : NengoModel) (s : SimState) : SimState :=
  { s with timeSig := (s.n_steps : ℚ) * m.dt }

/-- Phase 3 of `Simulator.step`: run the compiled step callables inside the
`seterr`-guarded region.  The modelled callables are total, so the body
never raises (`Except Empty`). -/
def execStepFns (m : NengoModel) (s : SimState) : SimState :=
  let r := runStepFns (fun _p => Except.ok (runCallables m s.timeSig s.world))
    s.fpPolicy
  { s with world := okValue r.1, fpPolicy := r.2 }

/-- `Simulator.step`: advance the simulator by `dt`.  Direct translation:
increment the counter, write `n_steps * dt` into the time signal, run the
compiled callables under the step fault policy (restoring the old policy),
then, if the model has probes, run the sampling pass. -/
def step (m : NengoModel) (s : SimState) : SimState :=
  let s1 : SimState := { s with n_steps := s.n_steps + 1 }
  let s2 : SimState := { s1 with timeSig := (s1.n_steps : ℚ) * m.dt }
  let r := runStepFns (fun _p => Except.ok (runCallables m s2.timeSig s2.world))
    s2.fpPolicy
  let s3 : SimState := { s2 with world := okValue r.1, fpPolicy := r.2 }
  if 0 < m.probes.length then probePass m s3 else s3

/-- The state of the simulator after the first three phases of
`Simulator.step` (counter increment, time-signal write, callable
execution), before the probe sampling pass. -/
def midState (m : NengoModel) (s : SimState) : SimState :=
  execStepFns m (writeTimeSignal m (incrCounter s))

/-- `Simulator.run_steps(steps)`: `for i in range(steps): self.step()`
(the progress tracker is an external collaborator with no effect on the
simulator state). -/
def run_steps (m : NengoModel) : Nat → SimState → SimState
  | 0, s => s
  | n + 1, s => run_steps m n (step m s)

/-- `Simulator.reset(seed=None)`: store the seed if one is given; zero the
step counter and the time signal; restore every signal of the store to its
captured initial value (`SignalDict.reset` on every key other than
`__time__`); rebuild the step callables from a fresh
`RandomState(self.seed)`; clear every probe's output list.  Entries of
`_probe_outputs` that are not probes (built parameters) are kept. -/
def reset (m : NengoModel) (s : SimState) (sd : Option Nat) : SimState :=
  let newSeed := match sd with | some v => v | none => s.seed
  { n_steps := 0
    timeSig := 0
    world := { sigs := m.initVal
               opState := m.initOpState newSeed
               rng := m.rngAfterBuild newSeed }
    probeData := fun p => if p ∈ m.probes then [] else s.probeData p
    fpPolicy := s.fpPolicy
    seed := newSeed }

/-- The value returned by the `Simulator.time` property:
`self.signals['__time__'].copy()` (the copied buffer holds the same
number; the aliasing side of `.copy()` is modelled in `SimMem` below). -/
def timeValue (s : SimState) : ℚ := s.timeSig

/-- Two simulator states agree on everything the stepping dynamics and the
probe series can observe: step counter, time signal, world, and the
output list of every registered probe. -/
def AgreeFull (m : NengoModel) (a b : SimState) : Prop :=
  a.n_steps = b.n_steps ∧ a.timeSig = b.timeSig ∧ a.world = b.world ∧
    ∀ p, p ∈ m.probes → a.probeData p = b.probeData p

/-- Python exceptions raised by the modelled code. -/
inductive PyError
  | attributeError (msg : String)
  | valueError (msg : String)
deriving DecidableEq

/-- A numpy `ndarray` as far as the result view is concerned: its contents
and its `WRITEABLE` flag. -/
structure NDArray where
  data : List ℚ
  writeable : Bool
deriving DecidableEq

/-- A value stored in `Simulator._probe_outputs`: the growable Python list
a probe accumulates into, or an already-materialized array. -/
inductive PyVal
  | pyList (xs : List ℚ)
  | pyArr (a : NDArray)
deriving DecidableEq

/-- `ProbeDict`: a view on the raw dict the simulator manipulates.  The
constructor stores the raw dict itself (`self.raw = raw`); no conversion
happens at construction. -/
structure ProbeDict where
  raw : Nat → PyVal

/-- `ProbeDict.__getitem__`: fetch `self.raw[key]`; if it is a list,
materialize it with `np.asarray` and clear the write flag with
`rval.setflags(write=False)`; otherwise return it unchanged. -/
def ProbeDict.getItem (d : ProbeDict) (key : Nat) : PyVal :=
  match d.raw key with
  | PyVal.pyList xs =>
      let rval : NDArray := { data := xs, writeable := true }
      PyVal.pyArr { rval with writeable := false }
  | v => v

/-- Modelled numpy semantics: item assignment on an `ndarray` whose
`WRITEABLE` flag is cleared raises
`ValueError: assignment destination is read-only`. -/
def NDArray.setItem (a : NDArray) (i : Nat) (v : ℚ) : Except PyError NDArray :=
  if a.writeable then Except.ok { a with data := a.data.set i v }
  else Except.error (PyError.valueError "assignment destination is read-only")

/-- A simulator object: its build artifacts and its mutable state. -/
structure Simulator where
  model : NengoModel
  st : SimState

/-- The `Simulator.dt` property: `return self.model.dt`. -/
def dtProp (sim : Simulator) : ℚ := sim.model.dt

/-- The message of the error raised by the `dt` setter. -/
def dtErrMsg : String :=
  "Cannot change simulator dt. Please file an issue at http://github.com/nengo/nengo/issues and describe your use case."

/-- The `Simulator.dt` setter: any assignment attempt raises
`AttributeError` unconditionally, producing no new simulator state. -/
def dtSetter (_sim : Simulator) (_dummy : ℚ) : Except PyError Simulator :=
  Except.error (PyError.attributeError dtErrMsg)

/-- An arena of numpy buffers addressed by identity: `store` gives each
address's (scalar) contents, `nextAddr` bounds the allocated addresses. -/
structure BufHeap where
  store : Nat → ℚ
  nextAddr : Nat

/-- The buffer-level view of the simulator needed for the aliasing
behaviour of the `time` property: the heap, the address of the
`__time__` buffer, and the step counter. -/
structure SimMem where
  heap : BufHeap
  timeAddr : Nat
  n_steps : Nat

/-- Modelled numpy semantics: `ndarray.copy()` allocates a fresh buffer
holding the same contents and returns its address. -/
def ndarrayCopy (h : BufHeap) (src : Nat) : Nat × BufHeap :=
  (h.nextAddr,
   { store := Function.update h.store h.nextAddr (h.store src)
     nextAddr := h.nextAddr + 1 })

/-- The `Simulator.time` property at buffer level:
`return self.signals['__time__'].copy()` — a fresh copy of the time
buffer, with the simulator itself untouched apart from the allocation. -/
def timeAccessor (s : SimMem) : Nat × SimMem :=
  let r := ndarrayCopy s.heap s.timeAddr
  (r.1, { s with heap := r.2 })

/-- In-place assignment into the buffer at address `a`. -/
def writeBuf (h : BufHeap) (a : Nat) (v : ℚ) : BufHeap :=
  { h with store := Function.update h.store a v }

/-- The clock-advancing part of `Simulator.step` at buffer level:
increment the counter and write `n_steps * dt` into the time buffer. -/
def stepMem (dtv : ℚ) (s : SimMem) : SimMem :=
  { s with n_steps := s.n_steps + 1
           heap := writeBuf s.heap s.timeAddr
             (((s.n_steps + 1 : Nat) : ℚ) * dtv) }

/-- A small concrete model used to instantiate the theorems: two signals,
two operators (one copies signal 0 plus one into signal 1, one accumulates
into private state and draws from the stream), probe 0 on signal 0 with
the default period, probe 1 on signal 1 sampling every `3 * dt`. -/
def demoModel : NengoModel :=
  { dt := 1 / 1000
    sigKeys := [0, 1]
    initVal := fun k => if k = 0 then 2 else 0
    probes := [0, 1]
    probeSig := fun p => if p = 0 then 0 else 1
    sampleEvery := fun p => if p = 1 then some (3 * (1 / 1000)) else none
    stepOrder := [0, 1]
    stepFn := fun i _dtv _t w =>
      if i = 0 then { w with sigs := Function.update w.sigs 1 (w.sigs 0 + 1) }
      else { w with opState := Function.update w.opState 1
                      (w.opState 1 + w.sigs 1)
                    rng := w.rng + 1 }
    initOpState := fun sd _i => (sd : ℚ)
    rngAfterBuild := fun sd => sd + 7 }

/-- A freshly built simulator state over `demoModel`. -/
def demoState0 : SimState :=
  { n_steps := 0
    timeSig := 0
    world := { sigs := fun _k => 0, opState := fun _k => 0, rng := 0 }
    probeData := fun _p => []
    fpPolicy := { invalid := ErrMode.warnMode, divide := ErrMode.warnMode }
    seed := 0 }

/-- A thoroughly mutated simulator state over `demoModel`. -/
def demoStateA : SimState :=
  { n_steps := 9
    timeSig := 77
    world := { sigs := fun _k => 42, opState := fun _k => 1, rng := 3 }
    probeData := fun _p => [5, 5]
    fpPolicy := { invalid := ErrMode.ignoreMode, divide := ErrMode.raiseMode }
    seed := 11 }

/-- An ambient fault policy for the fault-scope witness. -/
def demoPolicy : FpPolicy :=
  { invalid := ErrMode.warnMode, divide := ErrMode.warnMode }

/-- A concrete simulator object. -/
def demoSim : Simulator := { model := demoModel, st := demoState0 }

/-- A concrete buffer-level state: the time buffer lives at address 0 and
holds `6/1000`; address 1 is some other signal; 2 addresses allocated. -/
def demoMem : SimMem :=
  { heap := { store := fun a => if a = 0 then 6 / 1000 else 42
              nextAddr := 2 }
    timeAddr := 0
    n_steps := 6 }

/-- A concrete raw probe dict: probe 0 has accumulated two snapshots. -/
def demoRaw : Nat → PyVal :=
  fun k => if k = 0 then PyVal.pyList [1, 2] else PyVal.pyArr ⟨[], true⟩

/-! ## Basic lemmas about the guarded callable region -/

theorem runStepFns_fst {E A : Type} (body : FpPolicy → Except E A)
    (cur : FpPolicy) : (runStepFns body cur).1 = body stepErrPolicy := by
  unfold runStepFns seterr
  cases h : body stepErrPolicy <;> simp [h]

theorem runStepFns_snd {E A : Type} (body : FpPolicy → Except E A)
    (cur : FpPolicy) : (runStepFns body cur).2 = cur := by
  unfold runStepFns seterr
  cases h : body stepErrPolicy <;> simp [h]

theorem okValue_runStepFns {A : Type} (v : A) (cur : FpPolicy) :
    okValue (runStepFns (fun _p => Except.ok v) cur).1 = v := by
  rw [runStepFns_fst]
  rfl

/-! ## The probe pass only touches probe output lists -/

theorem probeOne_n_steps (m : NengoModel) (s : SimState) (q : Nat) :
    (probeOne m s q).n_steps = s.n_steps := by
  unfold probeOne
  split <;> rfl

theorem probeOne_timeSig (m : NengoModel) (s : SimState) (q : Nat) :
    (probeOne m s q).timeSig = s.timeSig := by
  unfold probeOne
  split <;> rfl

theorem probeOne_world (m : NengoModel) (s : SimState) (q : Nat) :
    (probeOne m s q).world = s.world := by
  unfold probeOne
  split <;> rfl

theorem probeOne_fpPolicy (m : NengoModel) (s : SimState) (q : Nat) :
    (probeOne m s q).fpPolicy = s.fpPolicy := by
  unfold probeOne
  split <;> rfl

theorem probeOne_probeData_ne (m : NengoModel) (s : SimState) (q p : Nat)
    (h : p ≠ q) : (probeOne m s q).probeData p = s.probeData p := by
  unfold probeOne
  split
  · exact Function.update_noteq h _ _
  · rfl

theorem probeOne_probeData_self (m : NengoModel) (s : SimState) (p : Nat) :
    (probeOne m s p).probeData p
      = s.probeData p ++ (if sampleTest m p s.n_steps
          then [s.world.sigs (m.probeSig p)] else []) := by
  by_cases h : sampleTest m p s.n_steps
  · simp [probeOne, h]
  · simp [probeOne, h]

theorem foldl_probeOne_n_steps (m : NengoModel) (L : List Nat) :
    ∀ s : SimState, (L.foldl (probeOne m) s).n_steps = s.n_steps := by
  induction L with
  | nil => intro s; rfl
  | cons q L ih =>
      intro s
      rw [List.foldl_cons, ih, probeOne_n_steps]

theorem foldl_probeOne_timeSig (m : NengoModel) (L : List Nat) :
    ∀ s : SimState, (L.foldl (probeOne m) s).timeSig = s.timeSig := by
  induction L with
  | nil => intro s; rfl
  | cons q L ih =>
      intro s
      rw [List.foldl_cons, ih, probeOne_timeSig]

theorem foldl_probeOne_world (m : NengoModel) (L : List Nat) :
    ∀ s : SimState, (L.foldl (probeOne m) s).world = s.world := by
  induction L with
  | nil => intro s; rfl
  | cons q L ih =>
      intro s
      rw [List.foldl_cons, ih, probeOne_world]

theorem foldl_probeOne_fpPolicy (m : NengoModel) (L : List Nat) :
    ∀ s : SimState, (L.foldl (probeOne m) s).fpPolicy = s.fpPolicy := by
  induction L with
  | nil => intro s; rfl
  | cons q L ih =>
      intro s
      rw [List.foldl_cons, ih, probeOne_fpPolicy]

theorem foldl_probeOne_probeData_not_mem (m : NengoModel) (L : List Nat) :
    ∀ (s : SimState) (p : Nat), p ∉ L →
      (L.foldl (probeOne m) s).probeData p = s.probeData p := by
  induction L with
  | nil => intro s p _h; rfl
  | cons q L ih =>
      intro s p hp
      rw [List.mem_cons, not_or] at hp
      rw [List.foldl_cons, ih _ p hp.2, probeOne_probeData_ne m s q p hp.1]

theorem foldl_probeOne_probeData_mem (m : NengoModel) (L : List Nat) :
    ∀ (s : SimState) (p : Nat), L.Nodup → p ∈ L →
      (L.foldl (probeOne m) s).probeData p
        = s.probeData p ++ (if sampleTest m p s.n_steps
            then [s.world.sigs (m.probeSig p)] else []) := by
  induction L with
  | nil => intro s p _ hp; cases hp
  | cons q L ih =>
      intro s p hnd hp
      rw [List.foldl_cons]
      rcases List.mem_cons.mp hp with he | hm
      · subst he
        rw [foldl_probeOne_probeData_not_mem m L _ p
              (List.Nodup.not_mem hnd)]
        exact probeOne_probeData_self m s p
      · have hq : p ≠ q := by
          rintro rfl
          exact (List.Nodup.not_mem hnd) hm
        rw [ih _ p (List.Nodup.of_cons hnd) hm, probeOne_probeData_ne m s q p hq,
            probeOne_n_steps, probeOne_world]

/-! ## Structure of one step -/

theorem step_eq_mid (m : NengoModel) (s : SimState) :
    step m s = if 0 < m.probes.length then probePass m (midState m s)
               else midState m s := rfl

theorem step_n_steps (m : NengoModel) (s : SimState) :
    (step m s).n_steps = s.n_steps + 1 := by
  rw [step_eq_mid]
  split
  · simp only [probePass]
    rw [foldl_probeOne_n_steps]
    rfl
  · rfl

theorem step_timeSig (m : NengoModel) (s : SimState) :
    (step m s).timeSig = ((s.n_steps + 1 : Nat) : ℚ) * m.dt := by
  rw [step_eq_mid]
  split
  · simp only [probePass]
    rw [foldl_probeOne_timeSig]
    rfl
  · rfl

theorem step_fpPolicy_eq (m : NengoModel) (s : SimState) :
    (step m s).fpPolicy = s.fpPolicy := by
  rw [step_eq_mid]
  split
  · simp only [probePass]
    rw [foldl_probeOne_fpPolicy]
    exact runStepFns_snd _ _
  · exact runStepFns_snd _ _

theorem run_steps_zero (m : NengoModel) (s : SimState) :
    run_steps m 0 s = s := rfl

theorem run_steps_succ (m : NengoModel) (n : Nat) (s : SimState) :
    run_steps m (n + 1) s = run_steps m n (step m s) := rfl

theorem run_steps_n_steps (m : NengoModel) (n : Nat) :
    ∀ s : SimState, (run_steps m n s).n_steps = s.n_steps + n := by
  induction n with
  | zero => intro s; rfl
  | succ j ih =>
      intro s
      rw [run_steps_succ]
      rw [ih (step m s), step_n_steps]
      omega

/-- C1: one call to `step()` first increments the step counter, then
writes `counter * dt` into the time signal, then invokes every compiled
step callable in scheduler order, and finally runs the probe sampling
pass, in exactly that order: `step` is the composition of these four
independently defined phases. -/
theorem step_phase_order (m : NengoModel) (s : SimState) :
    step m s
      = probePass m (execStepFns m (writeTimeSignal m (incrCounter s))) := by
  rw [step_eq_mid]
  split
  · rfl
  · rename_i hl
    have hnil : m.probes = [] := by
      cases h : m.probes with
      | nil => rfl
      | cons a L => rw [h] at hl; simp at hl
    simp [probePass, hnil, midState]

/-- C2: during the execution of the compiled step callables inside
`step()`, the policy in effect raises on invalid operations and ignores
divide-by-zero, and the previously active policy is restored on every
exit path, whether the callable loop completes (`Except.ok`) or raises
(`Except.error`); in the total model, `step` itself leaves the ambient
policy unchanged. -/
theorem fp_policy_scoped {E A : Type} (body : FpPolicy → Except E A)
    (cur : FpPolicy) :
    stepErrPolicy.invalid = ErrMode.raiseMode
    ∧ stepErrPolicy.divide = ErrMode.ignoreMode
    ∧ (runStepFns body cur).1 = body stepErrPolicy
    ∧ (runStepFns body cur).2 = cur
    ∧ (∀ a : A, body stepErrPolicy = Except.ok a →
        runStepFns body cur = (Except.ok a, cur))
    ∧ (∀ e : E, body stepErrPolicy = Except.error e →
        runStepFns body cur = (Except.error e, cur))
    ∧ ∀ (m : NengoModel) (s : SimState), (step m s).fpPolicy = s.fpPolicy := by
  refine ⟨rfl, rfl, runStepFns_fst body cur, runStepFns_snd body cur, ?_, ?_,
    step_fpPolicy_eq⟩
  · intro a h
    have h1 := runStepFns_fst body cur
    have h2 := runStepFns_snd body cur
    rw [h] at h1
    exact Prod.ext h1 h2
  · intro e h
    have h1 := runStepFns_fst body cur
    have h2 := runStepFns_snd body cur
    rw [h] at h1
    exact Prod.ext h1 h2

/-- Witness for C2: a completing body and a raising body, both executed
under the step policy with the prior policy restored. -/
theorem fp_policy_scoped_witness :
    runStepFns (fun _p => Except.ok 1) demoPolicy
      = ((Except.ok 1 : Except String Nat), demoPolicy)
    ∧ runStepFns (fun _p => Except.error "boom") demoPolicy
      = ((Except.error "boom" : Except String Nat), demoPolicy) :=
  ⟨(@fp_policy_scoped String Nat (fun _p => Except.ok 1)
      demoPolicy).2.2.2.2.1 1 rfl,
   (@fp_policy_scoped String Nat (fun _p => Except.error "boom")
      demoPolicy).2.2.2.2.2.1 "boom" rfl⟩

/-- C7: every attempt to assign to the simulator `dt` attribute raises a
descriptive `AttributeError`, never yields an updated simulator, and the
`dt` property still returns the value fixed at construction. -/
theorem dt_immutable (sim : Simulator) (v : ℚ) :
    dtSetter sim v = Except.error (PyError.attributeError dtErrMsg)
    ∧ (∀ sim2 : Simulator, dtSetter sim v ≠ Except.ok sim2)
    ∧ dtProp sim = sim.model.dt := by
  refine ⟨rfl, ?_, rfl⟩
  intro sim2 h
  simp [dtSetter] at h

/-- Witness for C7 at a concrete simulator and value. -/
theorem dt_immutable_witness :
    dtSetter demoSim (5 / 2) = Except.error (PyError.attributeError dtErrMsg)
    ∧ dtProp demoSim = demoSim.model.dt :=
  ⟨(dt_immutable demoSim (5 / 2)).1, (dt_immutable demoSim (5 / 2)).2.2⟩

/-- C9: `reset()` with no seed argument reuses the stored seed: it is the
same state transformation as `reset` with the stored seed passed
explicitly, so the rebuilt random stream and callable private state are
seeded identically and every subsequent run coincides. -/
theorem reset_none_reuses_seed (m : NengoModel) (s : SimState) :
    reset m s none = reset m s (some s.seed)
    ∧ (reset m s none).world.rng = m.rngAfterBuild s.seed
    ∧ (reset m s none).world.opState = m.initOpState s.seed
    ∧ (reset m s none).seed = s.seed
    ∧ ∀ n : Nat,
        run_steps m n (reset m s none) = run_steps m n (reset m s (some s.seed)) :=
  ⟨rfl, rfl, rfl, rfl, fun _n => rfl⟩

/-- Witness for C9 at a concrete mutated state. -/
theorem reset_none_reuses_seed_witness :
    reset demoModel demoStateA none
      = reset demoModel demoStateA (some demoStateA.seed)
    ∧ run_steps demoModel 2 (reset demoModel demoStateA none)
      = run_steps demoModel 2 (reset demoModel demoStateA (some demoStateA.seed)) :=
  ⟨(reset_none_reuses_seed demoModel demoStateA).1,
   (reset_none_reuses_seed demoModel demoStateA).2.2.2.2 2⟩

/-! ## The sampling test on integer step ratios -/

theorem floor_natCast_div (c k : Nat) (hk : 0 < k) :
    ⌊(c : ℚ) / (k : ℚ)⌋ = ((c / k : Nat) : ℤ) := by
  have hkq : (0 : ℚ) < (k : ℚ) := by exact_mod_cast hk
  rw [Int.floor_eq_iff]
  constructor
  · rw [le_div_iff₀ hkq]
    push_cast
    exact_mod_cast Nat.div_mul_le_self c k
  · rw [div_lt_iff₀ hkq]
    have h := Nat.lt_mul_div_succ c hk
    push_cast
    calc (c : ℚ) < (k : ℚ) * ((c / k : Nat) + 1) := by exact_mod_cast h
    _ = ((c / k : Nat) + 1) * (k : ℚ) := by ring

theorem pyMod_natCast (c k : Nat) (hk : 0 < k) :
    pyMod (c : ℚ) (k : ℚ) = ((c % k : Nat) : ℚ) := by
  unfold pyMod
  rw [floor_natCast_div c k hk, Int.cast_natCast]
  have h := Nat.div_add_mod c k
  have hq : (k : ℚ) * ((c / k : Nat) : ℚ) + ((c % k : Nat) : ℚ) = (c : ℚ) := by
    exact_mod_cast congrArg (fun x : Nat => (x : ℚ)) h
  linarith

theorem sampleTest_iff_dvd (m : NengoModel) (p : Nat) (k : Nat) (hk : 0 < k)
    (hper : probePeriod m p = (k : ℚ)) (c : Nat) :
    sampleTest m p c ↔ k ∣ c := by
  unfold sampleTest
  rw [hper, pyMod_natCast c k hk, Nat.cast_lt_one, Nat.dvd_iff_mod_eq_zero]

theorem probePeriod_of_none (m : NengoModel) (p : Nat)
    (h : m.sampleEvery p = none) : probePeriod m p = ((1 : Nat) : ℚ) := by
  simp [probePeriod, h]

theorem probePeriod_of_mult (m : NengoModel) (p : Nat) (k : Nat)
    (hdt : m.dt ≠ 0) (h : m.sampleEvery p = some ((k : ℚ) * m.dt)) :
    probePeriod m p = (k : ℚ) := by
  simp [probePeriod, h, mul_div_cancel_right₀ _ hdt]

/-! ## Counting probe snapshots across a run -/

theorem step_probeData_len (m : NengoModel) (s : SimState) (p : Nat)
    (hnd : m.probes.Nodup) (hp : p ∈ m.probes) :
    ((step m s).probeData p).length
      = (s.probeData p).length
        + (if sampleTest m p (s.n_steps + 1) then 1 else 0) := by
  have hlen : 0 < m.probes.length :=
    List.length_pos.mpr (List.ne_nil_of_mem hp)
  rw [step_eq_mid, if_pos hlen]
  simp only [probePass]
  rw [foldl_probeOne_probeData_mem m m.probes _ p hnd hp]
  have hns : (midState m s).n_steps = s.n_steps + 1 := rfl
  have hpd : (midState m s).probeData p = s.probeData p := rfl
  rw [hns, hpd]
  by_cases h : sampleTest m p (s.n_steps + 1) <;> simp [h]

theorem run_steps_probe_count (m : NengoModel) (p k : Nat) (hk : 0 < k)
    (hper : probePeriod m p = (k : ℚ)) (hnd : m.probes.Nodup)
    (hp : p ∈ m.probes) (n : Nat) :
    ∀ (s : SimState) (c : Nat), s.n_steps = c →
      (s.probeData p).length = c / k →
      ((run_steps m n s).probeData p).length = (c + n) / k := by
  induction n with
  | zero => intro s c _h1 h2; simpa using h2
  | succ j ih =>
      intro s c h1 h2
      rw [run_steps_succ]
      have hcnt : (step m s).n_steps = c + 1 := by rw [step_n_steps, h1]
      have hlen : ((step m s).probeData p).length = (c + 1) / k := by
        rw [step_probeData_len m s p hnd hp, h2, h1, Nat.succ_div]
        rw [if_congr (sampleTest_iff_dvd m p k hk hper (c + 1)) rfl rfl]
      have := ih (step m s) (c + 1) hcnt hlen
      rw [this]
      congr 1
      omega

/-- C3: for every probe and every number of steps `n`, after a reset
followed by `run_steps(n)`: a probe with no explicit sampling period holds
exactly `n` snapshots, and a probe with period `k * dt` for a positive
integer `k` holds exactly `n / k` (floor) snapshots, the per-step
sampling decision being the test `n_steps % (period / dt) < 1`
(`sampleTest`, modelled in exact arithmetic). -/
theorem probe_sample_count (m : NengoModel) (s : SimState) (sd : Option Nat)
    (p : Nat) (n : Nat) (hdt : 0 < m.dt) (hnd : m.probes.Nodup)
    (hp : p ∈ m.probes) :
    (m.sampleEvery p = none →
      ((run_steps m n (reset m s sd)).probeData p).length = n)
    ∧ (∀ k : Nat, 0 < k → m.sampleEvery p = some ((k : ℚ) * m.dt) →
      ((run_steps m n (reset m s sd)).probeData p).length = n / k) := by
  have hc : (reset m s sd).n_steps = 0 := rfl
  have hd : (reset m s sd).probeData p = [] := by simp [reset, hp]
  constructor
  · intro h
    have := run_steps_probe_count m p 1 Nat.one_pos
      (probePeriod_of_none m p h) hnd hp n (reset m s sd) 0 hc
      (by simp [hd])
    simpa using this
  · intro k hk hse
    have := run_steps_probe_count m p k hk
      (probePeriod_of_mult m p k (ne_of_gt hdt) hse) hnd hp n
      (reset m s sd) 0 hc (by simp [hd])
    simpa using this

/-- Witness for C3: over the demo model, after reset and 7 steps, the
default-period probe holds 7 snapshots and the period-3dt probe holds 2. -/
theorem probe_sample_count_witness :
    ((run_steps demoModel 7 (reset demoModel demoState0 (some 5))).probeData 0).length = 7
    ∧ ((run_steps demoModel 7 (reset demoModel demoState0 (some 5))).probeData 1).length = 7 / 3 := by
  have hdt : (0 : ℚ) < demoModel.dt := by norm_num [demoModel]
  have hnd : demoModel.probes.Nodup := by decide
  have hp0 : 0 ∈ demoModel.probes := by decide
  have hp1 : 1 ∈ demoModel.probes := by decide
  have hse0 : demoModel.sampleEvery 0 = none := by simp [demoModel]
  have hse1 : demoModel.sampleEvery 1 = some (((3 : Nat) : ℚ) * demoModel.dt) := by
    simp [demoModel]
  constructor
  · exact (probe_sample_count demoModel demoState0 (some 5) 0 7
      hdt hnd hp0).1 hse0
  · exact (probe_sample_count demoModel demoState0 (some 5) 1 7
      hdt hnd hp1).2 3 (by norm_num) hse1

/-! ## Determinism: stepping is a congruence for observable agreement -/

theorem probeOne_agree (m : NengoModel) (a b : SimState) (q : Nat)
    (hq : q ∈ m.probes) (h : AgreeFull m a b) :
    AgreeFull m (probeOne m a q) (probeOne m b q) := by
  obtain ⟨h1, h2, h3, h4⟩ := h
  by_cases hc : sampleTest m q a.n_steps
  · have hc2 : sampleTest m q b.n_steps := h1 ▸ hc
    refine ⟨?_, ?_, ?_, ?_⟩
    · simp [probeOne, hc, hc2, h1]
    · simp [probeOne, hc, hc2, h2]
    · simp [probeOne, hc, hc2, h3]
    · intro p hp
      simp only [probeOne, if_pos hc, if_pos hc2]
      by_cases hpq : p = q
      · subst hpq
        simp [Function.update_same, h4 p hp, h3]
      · simp [Function.update_noteq hpq, h4 p hp]
  · have hc2 : ¬ sampleTest m q b.n_steps := h1 ▸ hc
    simp only [probeOne, if_neg hc, if_neg hc2]
    exact ⟨h1, h2, h3, h4⟩

theorem foldl_probeOne_agree (m : NengoModel) (L : List Nat) :
    (∀ q ∈ L, q ∈ m.probes) → ∀ a b, AgreeFull m a b →
      AgreeFull m (L.foldl (probeOne m) a) (L.foldl (probeOne m) b) := by
  induction L with
  | nil => intro _ a b h; exact h
  | cons q L ih =>
      intro hL a b h
      rw [List.foldl_cons, List.foldl_cons]
      exact ih (fun r hr => hL r (List.mem_cons_of_mem q hr)) _ _
        (probeOne_agree m a b q (hL q (List.mem_cons_self q L)) h)

theorem midState_agree (m : NengoModel) (a b : SimState)
    (h : AgreeFull m a b) : AgreeFull m (midState m a) (midState m b) := by
  obtain ⟨h1, h2, h3, h4⟩ := h
  refine ⟨?_, ?_, ?_, ?_⟩
  · simp [midState, execStepFns, writeTimeSignal, incrCounter, h1]
  · simp [midState, execStepFns, writeTimeSignal, incrCounter, h1]
  · simp [midState, execStepFns, writeTimeSignal, incrCounter,
      okValue_runStepFns, h1, h3]
  · intro p hp
    simpa [midState, execStepFns, writeTimeSignal, incrCounter] using h4 p hp

theorem step_agree (m : NengoModel) (a b : SimState) (h : AgreeFull m a b) :
    AgreeFull m (step m a) (step m b) := by
  rw [step_eq_mid, step_eq_mid]
  by_cases hl : 0 < m.probes.length
  · rw [if_pos hl, if_pos hl]
    simp only [probePass]
    exact foldl_probeOne_agree m m.probes (fun q hq => hq) _ _
      (midState_agree m a b h)
  · rw [if_neg hl, if_neg hl]
    exact midState_agree m a b h

theorem run_steps_agree (m : NengoModel) (n : Nat) :
    ∀ a b, AgreeFull m a b →
      AgreeFull m (run_steps m n a) (run_steps m n b) := by
  induction n with
  | zero => intro a b h; exact h
  | succ j ih =>
      intro a b h
      rw [run_steps_succ, run_steps_succ]
      exact ih _ _ (step_agree m a b h)

theorem reset_agree (m : NengoModel) (s1 s2 : SimState) (sd : Nat) :
    AgreeFull m (reset m s1 (some sd)) (reset m s2 (some sd)) := by
  refine ⟨rfl, rfl, rfl, ?_⟩
  intro p hp
  simp [reset, hp]

/-- C4: for every seed and step count, `reset(seed)` followed by
`run_steps(n)` yields the same probe series regardless of the mutable
state the simulator was in beforehand — in particular, running the pair
twice on the same simulator yields bit-identical probe series both
times. -/
theorem run_deterministic (m : NengoModel) (s1 s2 : SimState) (sd n p : Nat)
    (hp : p ∈ m.probes) :
    (run_steps m n (reset m s1 (some sd))).probeData p
      = (run_steps m n (reset m s2 (some sd))).probeData p :=
  (run_steps_agree m n _ _ (reset_agree m s1 s2 sd)).2.2.2 p hp

/-- Witness for C4: the run after `reset(5)` from a fresh state and from
a thoroughly mutated state record the same series on probe 0. -/
theorem run_deterministic_witness :
    (run_steps demoModel 4 (reset demoModel demoState0 (some 5))).probeData 0
      = (run_steps demoModel 4 (reset demoModel demoStateA (some 5))).probeData 0 :=
  run_deterministic demoModel demoState0 demoStateA 5 4 0 (by decide)

/-- C5: after any sequence of steps, `reset()` zeroes the step counter,
zeroes the time signal, restores every signal of the store to its
originally captured reset value, and replaces every probe's series with
an empty one. -/
theorem reset_restores (m : NengoModel) (s0 : SimState) (j : Nat)
    (sd : Option Nat) :
    (reset m (run_steps m j s0) sd).n_steps = 0
    ∧ timeValue (reset m (run_steps m j s0) sd) = 0
    ∧ (∀ k, k ∈ m.sigKeys →
        (reset m (run_steps m j s0) sd).world.sigs k = m.initVal k)
    ∧ (∀ p, p ∈ m.probes →
        (reset m (run_steps m j s0) sd).probeData p = []) := by
  refine ⟨rfl, rfl, fun k _hk => rfl, fun p hp => ?_⟩
  simp [reset, hp]

/-- Witness for C5 over the demo model after 2 mutating steps. -/
theorem reset_restores_witness :
    (reset demoModel (run_steps demoModel 2 demoState0) none).n_steps = 0
    ∧ timeValue (reset demoModel (run_steps demoModel 2 demoState0) none) = 0
    ∧ (reset demoModel (run_steps demoModel 2 demoState0) none).world.sigs 0
        = demoModel.initVal 0
    ∧ (reset demoModel (run_steps demoModel 2 demoState0) none).probeData 1 = [] :=
  ⟨(reset_restores demoModel demoState0 2 none).1,
   (reset_restores demoModel demoState0 2 none).2.1,
   (reset_restores demoModel demoState0 2 none).2.2.1 0 (by decide),
   (reset_restores demoModel demoState0 2 none).2.2.2 1 (by decide)⟩

/-! ## The simulated clock -/

theorem run_steps_timeSig (m : NengoModel) (n : Nat) :
    ∀ (s : SimState) (c : Nat), s.n_steps = c → s.timeSig = (c : ℚ) * m.dt →
      (run_steps m n s).timeSig = ((c + n : Nat) : ℚ) * m.dt := by
  induction n with
  | zero => intro s c _h1 h2; simpa using h2
  | succ j ih =>
      intro s c h1 h2
      rw [run_steps_succ]
      have := ih (step m s) (c + 1) (by rw [step_n_steps, h1])
        (by rw [step_timeSig, h1])
      rw [this]
      congr 2
      omega

/-- C6: after reset followed by `run_steps(n)`, the `time` property
equals `n * dt` exactly; each step writes the single product
`counter * dt`, so no error accumulates. -/
theorem time_after_run_steps (m : NengoModel) (s : SimState)
    (sd : Option Nat) (n : Nat) :
    timeValue (run_steps m n (reset m s sd)) = (n : ℚ) * m.dt := by
  have := run_steps_timeSig m n (reset m s sd) 0 rfl (by simp [reset])
  simpa [timeValue] using this

/-- Witness for C6 at a concrete run of 3 steps. -/
theorem time_after_run_steps_witness :
    timeValue (run_steps demoModel 3 (reset demoModel demoState0 none))
      = ((3 : Nat) : ℚ) * demoModel.dt :=
  time_after_run_steps demoModel demoState0 none 3

/-- C8: the probe result view is read-only and lazy: constructing the
view stores the raw snapshot lists unconverted, the conversion to a
numeric array happens at access and marks the result non-writable, and
every attempt to assign through the returned array raises. -/
theorem probe_view_readonly_lazy (raw : Nat → PyVal) (key : Nat)
    (xs : List ℚ) (h : raw key = PyVal.pyList xs) :
    (ProbeDict.mk raw).raw key = PyVal.pyList xs
    ∧ (ProbeDict.mk raw).getItem key
        = PyVal.pyArr { data := xs, writeable := false }
    ∧ ∀ (i : Nat) (v : ℚ),
        NDArray.setItem { data := xs, writeable := false } i v
          = Except.error (PyError.valueError "assignment destination is read-only") := by
  refine ⟨h, ?_, fun i v => rfl⟩
  simp [ProbeDict.getItem, h]

/-- Witness for C8 on a concrete accumulated snapshot list. -/
theorem probe_view_readonly_lazy_witness :
    (ProbeDict.mk demoRaw).getItem 0
      = PyVal.pyArr { data := [1, 2], writeable := false }
    ∧ NDArray.setItem { data := ([1, 2] : List ℚ), writeable := false } 0 3
      = Except.error (PyError.valueError "assignment destination is read-only") :=
  ⟨(probe_view_readonly_lazy demoRaw 0 [1, 2] rfl).2.1,
   (probe_view_readonly_lazy demoRaw 0 [1, 2] rfl).2.2 0 3⟩

/-- C10: the `time` property returns a copy of the internal time buffer:
the copy holds the time value, and mutating through the copy leaves the
simulator's time buffer, step counter, and subsequent stepping behaviour
unchanged. -/
theorem time_returns_copy (s : SimMem) (v : ℚ)
    (h : s.timeAddr < s.heap.nextAddr) :
    (timeAccessor s).2.heap.store (timeAccessor s).1
        = s.heap.store s.timeAddr
    ∧ (writeBuf (timeAccessor s).2.heap (timeAccessor s).1 v).store s.timeAddr
        = s.heap.store s.timeAddr
    ∧ (timeAccessor s).2.n_steps = s.n_steps
    ∧ ∀ dtv : ℚ,
        (stepMem dtv { (timeAccessor s).2 with
            heap := writeBuf (timeAccessor s).2.heap (timeAccessor s).1 v
          }).heap.store s.timeAddr
          = (stepMem dtv s).heap.store s.timeAddr
        ∧ (stepMem dtv { (timeAccessor s).2 with
            heap := writeBuf (timeAccessor s).2.heap (timeAccessor s).1 v
          }).n_steps = (stepMem dtv s).n_steps := by
  have hne : s.timeAddr ≠ s.heap.nextAddr := Nat.ne_of_lt h
  refine ⟨?_, ?_, rfl, ?_⟩
  · simp [timeAccessor, ndarrayCopy, Function.update_same]
  · simp [timeAccessor, ndarrayCopy, writeBuf,
      Function.update_noteq hne]
  · intro dtv
    constructor
    · simp [stepMem, timeAccessor, ndarrayCopy, writeBuf,
        Function.update_same]
    · rfl

/-- Witness for C10 at a concrete buffer layout. -/
theorem time_returns_copy_witness :
    (writeBuf (timeAccessor demoMem).2.heap (timeAccessor demoMem).1 9).store
        demoMem.timeAddr
      = demoMem.heap.store demoMem.timeAddr
    ∧ (timeAccessor demoMem).2.n_steps = demoMem.n_steps
    ∧ (stepMem (1 / 1000) { (timeAccessor demoMem).2 with
          heap := writeBuf (timeAccessor demoMem).2.heap (timeAccessor demoMem).1 9
        }).heap.store demoMem.timeAddr
        = (stepMem (1 / 1000) demoMem).heap.store demoMem.timeAddr :=
  ⟨(time_returns_copy demoMem 9 (by decide)).2.1,
   (time_returns_copy demoMem 9 (by decide)).2.2.1,
   ((time_returns_copy demoMem 9 (by decide)).2.2.2 (1 / 1000)).1⟩

end Nengo
